import Mathlib

/-!
Shallow embedding of the CSV batch ingestor
(`src/.ipynb_checkpoints/ingestion_db-checkpoint.py`, function
`load_data_fast`), together with proofs about the testable properties of
its specification.

Modelling choices:
* a CSV file is its name plus the list of raw lines (header first), each
  line a list of cell strings;
* the database is an association list from table names to committed rows;
* pandas `read_csv(..., chunksize=C)`: constructing the reader over a file
  with no lines at all raises `EmptyDataError` (the reader parses the
  header eagerly and finds no columns); since that statement sits outside
  the per-file `try` in the source, it is modelled as an escaping
  exception (`ok := false`).  Otherwise the reader yields the data rows in
  chunks of `C` rows, and the first `next` on a header-only file raises
  `StopIteration`;
* the fallible database operations inside the per-file `try` are driven
  by an explicit fault assignment (`Faults`): the first `to_sql` insert,
  opening the raw connection, each `copy_expert` call, and the commit.
-/

namespace VendorIngest

/-- One raw CSV line, as a list of cell strings. -/
abbrev Row := List String

/-- A source file: its directory entry name and its raw lines, the first
line being the header when one is present. -/
structure CsvFile where
  name : String
  lines : List Row
deriving DecidableEq

/-- Index of the last dot in a character list, if any
(Python `str.rfind`). -/
def rfindDot : List Char → Option Nat
  | [] => Option.none
  | c :: cs =>
    match rfindDot cs with
    | some i => some (i + 1)
    | Option.none => if c = '.' then some 0 else Option.none

/-- Root part of `os.path.splitext` on a bare file name (no directory
separators): everything before the last dot, unless every character in
front of that dot is itself a dot, in which case the extension is empty
and the whole name is the root (CPython `genericpath._splitext`). -/
def splitextRoot (s : String) : String :=
  match rfindDot s.data with
  | Option.none => s
  | some i =>
    if (s.data.take i).any (fun c => c != '.') then String.mk (s.data.take i) else s

/-- Python `str.lower`, character by character (the character-level
lowering that matters for the ASCII table names in scope). -/
def lowerStr (s : String) : String := String.mk (s.data.map Char.toLower)

/-- Python `str.endswith`: the second string is a suffix of the first. -/
def strEndsWith (s t : String) : Bool :=
  if t.data.length ≤ s.data.length then
    decide (s.data.drop (s.data.length - t.data.length) = t.data)
  else false

/-- Target table name derived at line 47 of the source:
`os.path.splitext(file)[0].lower()`. -/
def tableNameOf (name : String) : String := lowerStr (splitextRoot name)

/-- Fuel-indexed chunk splitter; `chunksOf` instantiates the fuel with the
length of the list, which is enough fuel for any positive chunk size. -/
def chunksGo {α : Type} (c : Nat) : Nat → List α → List (List α)
  | _, [] => []
  | 0, _ => []
  | fuel + 1, x :: xs => ((x :: xs).take c) :: chunksGo c fuel (xs.drop (c - 1))

/-- The chunks a pandas reader with `chunksize = c` yields over the data
rows `l`: slices of `c` consecutive rows, the last one possibly shorter. -/
def chunksOf {α : Type} (c : Nat) (l : List α) : List (List α) :=
  chunksGo c l.length l

/-- Concatenation of a list of chunks. -/
def catChunks {α : Type} : List (List α) → List α
  | [] => []
  | x :: xs => x ++ catChunks xs

/-- The database: committed tables, each a named list of rows kept in
insertion order. -/
abbrev DB := List (String × List Row)

/-- Committed contents of table `t`, when the table exists. -/
def lookupTable : DB → String → Option (List Row)
  | [], _ => Option.none
  | (u, rs) :: db, t => if u = t then some rs else lookupTable db t

/-- Committed contents of table `t`, defaulting to no rows when the table
is absent. -/
def lookupD (db : DB) (t : String) : List Row :=
  (lookupTable db t).getD []

/-- Effect of `to_sql(..., if_exists='append')` and of a committed COPY:
append `rows` to table `t`, creating the table when it is absent. -/
def appendRows : DB → String → List Row → DB
  | [], t, rows => [(t, rows)]
  | (u, rs) :: db, t, rows =>
    if u = t then (u, rs ++ rows) :: db else (u, rs) :: appendRows db t rows

/-- Observable events of one run, in program order: the progress-bar
seeding, the two database write paths, log lines, transaction and
connection milestones, and the final summary line. -/
inductive Event : Type where
  | precounted : String → Int → Event
  | insertedFirst : String → Nat → Event
  | openedRaw : String → Event
  | copied : String → Nat → Event
  | committed : String → Event
  | warnedEmpty : String → Event
  | loggedError : String → Event
  | rolledBack : String → Event
  | closedRaw : String → Event
  | summary : Event
deriving DecidableEq

/-- Which of the fallible database operations inside the per-file `try`
fail for a given file.  `copyFailsAt = some i` makes the i-th
`copy_expert` call (0-based, counted over the chunks after the first)
raise. -/
structure Faults where
  firstInsertFails : Bool
  rawConnFails : Bool
  copyFailsAt : Option Nat
  commitFails : Bool
deriving DecidableEq

/-- The fault assignment under which every database operation succeeds. -/
def noFaults : Faults := ⟨false, false, Option.none, false⟩

theorem noFaults_first : noFaults.firstInsertFails = false := rfl

theorem noFaults_raw : noFaults.rawConnFails = false := rfl

theorem noFaults_copy : noFaults.copyFailsAt = Option.none := rfl

theorem noFaults_commit : noFaults.commitFails = false := rfl

/-- Result of executing a piece of the script: the database, the emitted
events, and whether control left the piece normally (`ok = false` marks an
exception that escaped every handler). -/
structure StepResult where
  db : DB
  events : List Event
  ok : Bool
deriving DecidableEq

/-- Number of `copy_expert` calls that complete over `n` remaining chunks
(all of them when no copy fault is set). -/
def copyCount (failAt : Option Nat) (n : Nat) : Nat :=
  match failAt with
  | Option.none => n
  | some i => min i n

/-- Whether the COPY loop over `n` remaining chunks runs to completion. -/
def copySucceeds (failAt : Option Nat) (n : Nat) : Bool :=
  match failAt with
  | Option.none => true
  | some i => decide (n ≤ i)

/-- Events emitted by the COPY loop: one `copied` event per completed
`copy_expert` call. -/
def copyTrace (tn : String) (failAt : Option Nat) (rest : List (List Row)) : List Event :=
  (rest.take (copyCount failAt rest.length)).map (fun ch => Event.copied tn ch.length)

/-- Lines 78 to 101 of the source: the bulk phase over the raw
connection.  Rows staged by COPY become visible only at `commit`; any
failure in the loop or at commit is logged and rolls the transaction
back; the connection is closed in the `finally` either way. -/
def bulkResult (flt : Faults) (tn fn : String) (rest : List (List Row)) (db1 : DB) : StepResult :=
  let evs := Event.openedRaw fn :: copyTrace tn flt.copyFailsAt rest
  if copySucceeds flt.copyFailsAt rest.length && !flt.commitFails then
    ⟨appendRows db1 tn (catChunks rest), evs ++ [Event.committed fn, Event.closedRaw fn], true⟩
  else
    ⟨db1, evs ++ [Event.loggedError fn, Event.rolledBack fn, Event.closedRaw fn], true⟩

/-- Lines 47 to 101 of the source for one file, with the tqdm total
passed explicitly: derive the table name, model `pd.read_csv` (which
raises outside the `try` when the file has no lines at all), then the
per-file `try` / `except StopIteration` / `except Exception` /
`finally`.  The first chunk goes through `to_sql`, which commits on its
own engine connection before the raw connection is even opened. -/
def processFileWithTotal (flt : Faults) (C : Nat) (f : CsvFile) (total : Int) (db : DB) :
    StepResult :=
  let tn := tableNameOf f.name
  let pre : List Event := [Event.precounted f.name total]
  match f.lines with
  | [] => ⟨db, pre, false⟩
  | _ :: dataRows =>
    match chunksOf C dataRows with
    | [] => ⟨db, pre ++ [Event.warnedEmpty f.name], true⟩
    | c0 :: rest =>
      if flt.firstInsertFails then ⟨db, pre ++ [Event.loggedError f.name], true⟩
      else
        let ev1 := pre ++ [Event.insertedFirst tn c0.length]
        if flt.rawConnFails then
          ⟨appendRows db tn c0, ev1 ++ [Event.loggedError f.name], true⟩
        else
          let r := bulkResult flt tn f.name rest (appendRows db tn c0)
          ⟨r.db, ev1 ++ r.events, r.ok⟩

/-- One file exactly as the source processes it: the tqdm total is the
pre-counted number of lines minus one (line 53 of the source). -/
def processFile (flt : Faults) (C : Nat) (f : CsvFile) (db : DB) : StepResult :=
  processFileWithTotal flt C f ((f.lines.length : Int) - 1) db

/-- The `for file in csv_files` loop followed by the final summary line;
an escaped exception aborts the remaining iterations and skips the
summary. -/
def runFiles (flt : String → Faults) (C : Nat) : List CsvFile → DB → StepResult
  | [], db => ⟨db, [Event.summary], true⟩
  | f :: fs, db =>
    let r := processFile (flt f.name) C f db
    if r.ok then
      let rest := runFiles flt C fs r.db
      ⟨rest.db, r.events ++ rest.events, rest.ok⟩
    else ⟨r.db, r.events, false⟩

/-- The whole of `load_data_fast`: keep the directory entries whose name
ends in `.csv`; when none match, return before the loop (so no summary is
emitted); otherwise run the per-file loop. -/
def load_data_fast (flt : String → Faults) (C : Nat) (files : List CsvFile) (db : DB) :
    StepResult :=
  let csv := files.filter (fun f => strEndsWith f.name ".csv")
  if csv.isEmpty then ⟨db, [], true⟩ else runFiles flt C csv db

/-- The table a database-writing event targets, when it targets one. -/
def eventTable : Event → Option String
  | Event.insertedFirst t _ => some t
  | Event.copied t _ => some t
  | _ => Option.none

/-- Net database effect of a fault-free run: append the data rows of each
file to its table, in file order. -/
def ingestAll : List CsvFile → DB → DB
  | [], db => db
  | f :: fs, db => ingestAll fs (appendRows db (tableNameOf f.name) (f.lines.drop 1))

/-! Basic lemmas about the chunk splitter. -/

theorem chunksOf_nil {α : Type} (c : Nat) : chunksOf c ([] : List α) = [] := rfl

theorem chunksOf_cons {α : Type} (c : Nat) (x : α) (xs : List α) :
    chunksOf c (x :: xs) = ((x :: xs).take c) :: chunksGo c xs.length (xs.drop (c - 1)) := rfl

theorem chunksGo_fuel {α : Type} (c : Nat) :
    ∀ (f₁ f₂ : Nat) (l : List α), l.length ≤ f₁ → l.length ≤ f₂ →
      chunksGo c f₁ l = chunksGo c f₂ l := by
  intro f₁
  induction f₁ with
  | zero =>
    intro f₂ l h1 _
    have hl : l = [] := List.length_eq_zero.mp (Nat.le_antisymm h1 (Nat.zero_le _))
    subst hl
    cases f₂ <;> rfl
  | succ n ih =>
    intro f₂ l h1 h2
    cases l with
    | nil => cases f₂ <;> rfl
    | cons x xs =>
      cases f₂ with
      | zero => simp at h2
      | succ m =>
        show ((x :: xs).take c) :: chunksGo c n (xs.drop (c - 1))
            = ((x :: xs).take c) :: chunksGo c m (xs.drop (c - 1))
        have hxs : xs.length ≤ n := by simpa using h1
        have hxs' : xs.length ≤ m := by simpa using h2
        have hd : (xs.drop (c - 1)).length ≤ xs.length := by
          simp [List.length_drop]
        rw [ih m (xs.drop (c - 1)) (le_trans hd hxs) (le_trans hd hxs')]

theorem chunksOf_cons' {α : Type} (c : Nat) (x : α) (xs : List α) :
    chunksOf c (x :: xs) = ((x :: xs).take c) :: chunksOf c (xs.drop (c - 1)) := by
  rw [chunksOf_cons]
  have hd : (xs.drop (c - 1)).length ≤ xs.length := by simp [List.length_drop]
  rw [chunksGo_fuel c xs.length (xs.drop (c - 1)).length (xs.drop (c - 1)) hd le_rfl]
  rfl

theorem chunksGo_cat {α : Type} (c : Nat) (hc : 0 < c) :
    ∀ (fuel : Nat) (l : List α), l.length ≤ fuel → catChunks (chunksGo c fuel l) = l := by
  intro fuel
  induction fuel with
  | zero =>
    intro l h
    have hl : l = [] := List.length_eq_zero.mp (Nat.le_antisymm h (Nat.zero_le _))
    subst hl; rfl
  | succ n ih =>
    intro l h
    cases l with
    | nil => rfl
    | cons x xs =>
      obtain ⟨c', rfl⟩ : ∃ c', c = c' + 1 := by
        cases c with
        | zero => exact absurd hc (by simp)
        | succ k => exact ⟨k, rfl⟩
      show ((x :: xs).take (c' + 1)) ++ catChunks (chunksGo (c' + 1) n (xs.drop (c' + 1 - 1))) = x :: xs
      have hxs : xs.length ≤ n := by simpa using h
      have hd : (xs.drop (c' + 1 - 1)).length ≤ n := by
        simp only [List.length_drop]
        exact le_trans (Nat.sub_le _ _) hxs
      rw [ih (xs.drop (c' + 1 - 1)) hd]
      simp [List.take_succ_cons]

theorem chunksOf_cat {α : Type} (c : Nat) (hc : 0 < c) (l : List α) :
    catChunks (chunksOf c l) = l :=
  chunksGo_cat c hc l.length l le_rfl

theorem chunksGo_length {α : Type} (c : Nat) (hc : 0 < c) :
    ∀ (fuel : Nat) (l : List α), l.length ≤ fuel →
      (chunksGo c fuel l).length = (l.length + c - 1) / c := by
  intro fuel
  induction fuel with
  | zero =>
    intro l h
    have hl : l = [] := List.length_eq_zero.mp (Nat.le_antisymm h (Nat.zero_le _))
    subst hl
    simp [chunksGo]
    exact (Nat.div_eq_of_lt (by omega)).symm
  | succ n ih =>
    intro l h
    cases l with
    | nil =>
      simp [chunksGo]
      exact (Nat.div_eq_of_lt (by omega)).symm
    | cons x xs =>
      obtain ⟨c', rfl⟩ : ∃ c', c = c' + 1 := by
        cases c with
        | zero => exact absurd hc (by simp)
        | succ k => exact ⟨k, rfl⟩
      show (((x :: xs).take (c' + 1)) :: chunksGo (c' + 1) n (xs.drop (c' + 1 - 1))).length
          = ((x :: xs).length + (c' + 1) - 1) / (c' + 1)
      have hxs : xs.length ≤ n := by simpa using h
      have hd : (xs.drop (c' + 1 - 1)).length ≤ n := by
        simp only [List.length_drop]
        exact le_trans (Nat.sub_le _ _) hxs
      rw [List.length_cons, ih (xs.drop (c' + 1 - 1)) hd]
      simp only [List.length_drop, List.length_cons]
      have hgoal : (xs.length - (c' + 1 - 1) + (c' + 1) - 1) / (c' + 1) + 1
          = (xs.length + 1 + (c' + 1) - 1) / (c' + 1) := by
        have h1 : xs.length - (c' + 1 - 1) + (c' + 1) - 1 = xs.length - c' + c' := by omega
        have h2 : xs.length + 1 + (c' + 1) - 1 = xs.length + (c' + 1) := by omega
        rw [h1, h2, Nat.add_div_right _ (Nat.succ_pos c')]
        rcases le_or_lt c' xs.length with hle | hlt
        · rw [Nat.sub_add_cancel hle]
        · rw [Nat.sub_eq_zero_of_le (le_of_lt hlt), Nat.zero_add,
            Nat.div_eq_of_lt (by omega), Nat.div_eq_of_lt (by omega)]
      exact hgoal

theorem chunksOf_length {α : Type} (c : Nat) (hc : 0 < c) (l : List α) :
    (chunksOf c l).length = (l.length + c - 1) / c :=
  chunksGo_length c hc l.length l le_rfl

/-! Basic lemmas about the database association list. -/

theorem lookupTable_appendRows_self (db : DB) (t : String) (r : List Row) :
    lookupTable (appendRows db t r) t = some (lookupD db t ++ r) := by
  induction db with
  | nil => simp [appendRows, lookupTable, lookupD]
  | cons p db ih =>
    obtain ⟨u, rs⟩ := p
    by_cases h : u = t
    · subst h
      simp [appendRows, lookupTable, lookupD]
    · simp [appendRows, lookupTable, lookupD, h, ih]

theorem lookupTable_appendRows_ne (db : DB) (t u : String) (r : List Row) (h : u ≠ t) :
    lookupTable (appendRows db t r) u = lookupTable db u := by
  induction db with
  | nil => simp [appendRows, lookupTable, Ne.symm h]
  | cons p db ih =>
    obtain ⟨v, rs⟩ := p
    by_cases hv : v = t
    · subst hv
      simp [appendRows, lookupTable, Ne.symm h]
    · simp [appendRows, lookupTable, hv, ih]

theorem lookupD_appendRows_self (db : DB) (t : String) (r : List Row) :
    lookupD (appendRows db t r) t = lookupD db t ++ r := by
  simp [lookupD, lookupTable_appendRows_self]

theorem lookupD_appendRows_ne (db : DB) (t u : String) (r : List Row) (h : u ≠ t) :
    lookupD (appendRows db t r) u = lookupD db u := by
  simp [lookupD, lookupTable_appendRows_ne db t u r h]

theorem appendRows_appendRows (db : DB) (t : String) (r1 r2 : List Row) :
    appendRows (appendRows db t r1) t r2 = appendRows db t (r1 ++ r2) := by
  induction db with
  | nil => simp [appendRows]
  | cons p db ih =>
    obtain ⟨u, rs⟩ := p
    by_cases h : u = t
    · subst h
      simp [appendRows, List.append_assoc]
    · simp [appendRows, h, ih]

/-! Shape lemmas for the per-file step. -/

theorem getLast?_append_right {α : Type} (l₁ : List α) {l₂ : List α} {e : α}
    (h : l₂.getLast? = some e) : (l₁ ++ l₂).getLast? = some e := by
  induction l₁ with
  | nil => simpa using h
  | cons x xs ih =>
    rw [List.cons_append]
    rcases hm : xs ++ l₂ with _ | ⟨y, m⟩
    · rcases List.append_eq_nil.mp hm with ⟨_, h2⟩
      subst h2
      simp at h
    · rw [List.getLast?_cons_cons, ← hm]
      exact ih

theorem bulkResult_ok (flt : Faults) (tn fn : String) (rest : List (List Row)) (db1 : DB) :
    (bulkResult flt tn fn rest db1).ok = true := by
  unfold bulkResult
  split <;> rfl

/-- On a file whose lines are nonempty, every exception raised by the
modelled database operations is caught inside the per-file handlers. -/
theorem processFileWithTotal_ok (flt : Faults) (C : Nat) (f : CsvFile) (total : Int)
    (db : DB) (h : f.lines ≠ []) :
    (processFileWithTotal flt C f total db).ok = true := by
  obtain ⟨nm, lines⟩ := f
  cases lines with
  | nil => simp at h
  | cons hd d =>
    rcases hch : chunksOf C d with _ | ⟨c0, rest⟩
    · simp [processFileWithTotal, hch]
    · cases hfi : flt.firstInsertFails <;> cases hrc : flt.rawConnFails <;>
        simp [processFileWithTotal, hch, hfi, hrc, bulkResult_ok]

/-- Fault-free per-file step on a file with at least one data chunk: the
data rows end up appended to the target table, with the expected trace. -/
theorem processFileWithTotal_noFaults_eq (C : Nat) (f : CsvFile) (total : Int) (db : DB)
    (c0 : List Row) (rest : List (List Row)) (hC : 0 < C)
    (hch : chunksOf C (f.lines.drop 1) = c0 :: rest) :
    processFileWithTotal noFaults C f total db
      = ⟨appendRows db (tableNameOf f.name) (f.lines.drop 1),
         [Event.precounted f.name total,
          Event.insertedFirst (tableNameOf f.name) c0.length,
          Event.openedRaw f.name]
           ++ rest.map (fun ch => Event.copied (tableNameOf f.name) ch.length)
           ++ [Event.committed f.name, Event.closedRaw f.name],
         true⟩ := by
  obtain ⟨nm, lines⟩ := f
  cases lines with
  | nil => simp [chunksOf_nil] at hch
  | cons hd d =>
    simp only [List.drop_succ_cons, List.drop_zero] at hch
    have hcat : c0 ++ catChunks rest = d := by
      have := chunksOf_cat C hC d
      rw [hch] at this
      simpa [catChunks] using this
    simp [processFileWithTotal, hch, noFaults_first, noFaults_raw, noFaults_copy,
      noFaults_commit, bulkResult, copySucceeds, copyTrace, copyCount]
    rw [appendRows_appendRows, hcat]

/-- Per-file step when a COPY call fails: the first chunk stays, the bulk
rows are rolled back, the error is logged and the connection closed. -/
theorem processFileWithTotal_copyFail (flt : Faults) (C : Nat) (f : CsvFile) (total : Int)
    (db : DB) (c0 : List Row) (rest : List (List Row)) (i : Nat)
    (hch : chunksOf C (f.lines.drop 1) = c0 :: rest)
    (hfi : flt.firstInsertFails = false) (hrc : flt.rawConnFails = false)
    (hcp : flt.copyFailsAt = some i) (hi : i < rest.length) :
    processFileWithTotal flt C f total db
      = ⟨appendRows db (tableNameOf f.name) c0,
         [Event.precounted f.name total,
          Event.insertedFirst (tableNameOf f.name) c0.length,
          Event.openedRaw f.name]
           ++ (rest.take i).map (fun ch => Event.copied (tableNameOf f.name) ch.length)
           ++ [Event.loggedError f.name, Event.rolledBack f.name, Event.closedRaw f.name],
         true⟩ := by
  obtain ⟨nm, lines⟩ := f
  cases lines with
  | nil => simp [chunksOf_nil] at hch
  | cons hd d =>
    simp only [List.drop_succ_cons, List.drop_zero] at hch
    have hsucc : copySucceeds flt.copyFailsAt rest.length = false := by
      simp [copySucceeds, hcp, hi, Nat.not_le.mpr hi]
    have hcnt : copyCount flt.copyFailsAt rest.length = i := by
      simp [copyCount, hcp, Nat.min_eq_left (le_of_lt hi)]
    simp [processFileWithTotal, hch, hfi, hrc, bulkResult, hsucc, hcnt, copyTrace]

/-! Lemmas about whole fault-free runs. -/

theorem lookupTable_ingestAll_notMem (files : List CsvFile) (db : DB) (t : String)
    (h : ∀ f ∈ files, tableNameOf f.name ≠ t) :
    lookupTable (ingestAll files db) t = lookupTable db t := by
  induction files generalizing db with
  | nil => rfl
  | cons f fs ih =>
    have hf : tableNameOf f.name ≠ t := h f (by simp)
    rw [ingestAll, ih _ (fun g hg => h g (List.mem_cons_of_mem _ hg))]
    exact lookupTable_appendRows_ne db (tableNameOf f.name) t _ (Ne.symm hf)

theorem lookupD_ingestAll_notMem (files : List CsvFile) (db : DB) (t : String)
    (h : ∀ f ∈ files, tableNameOf f.name ≠ t) :
    lookupD (ingestAll files db) t = lookupD db t := by
  simp [lookupD, lookupTable_ingestAll_notMem files db t h]

theorem lookupD_ingestAll_mem (files : List CsvFile) (db : DB) (f : CsvFile)
    (hf : f ∈ files) (hnd : (files.map (fun g => tableNameOf g.name)).Nodup) :
    lookupD (ingestAll files db) (tableNameOf f.name)
      = lookupD db (tableNameOf f.name) ++ f.lines.drop 1 := by
  induction files generalizing db with
  | nil => simp at hf
  | cons g gs ih =>
    rw [List.map_cons, List.nodup_cons] at hnd
    obtain ⟨hnotin, hnd'⟩ := hnd
    rcases List.mem_cons.mp hf with rfl | hmem
    · have hall : ∀ x ∈ gs, tableNameOf x.name ≠ tableNameOf f.name := by
        intro x hx heq
        exact hnotin (heq ▸ List.mem_map_of_mem _ hx)
      rw [ingestAll, lookupD_ingestAll_notMem gs _ _ hall,
        lookupD_appendRows_self]
    · have hne : tableNameOf f.name ≠ tableNameOf g.name := by
        intro heq
        exact hnotin (heq ▸ List.mem_map_of_mem _ hmem)
      rw [ingestAll, ih _ hmem hnd',
        lookupD_appendRows_ne _ _ _ _ hne]

theorem runFiles_noFaults (C : Nat) (hC : 0 < C) :
    ∀ (files : List CsvFile) (db : DB), (∀ f ∈ files, 2 ≤ f.lines.length) →
      (runFiles (fun _ => noFaults) C files db).db = ingestAll files db
      ∧ (runFiles (fun _ => noFaults) C files db).ok = true := by
  intro files
  induction files with
  | nil => intro db _; exact ⟨rfl, rfl⟩
  | cons f fs ih =>
    intro db h
    have hf : 2 ≤ f.lines.length := h f (by simp)
    obtain ⟨c0, rest, hch⟩ : ∃ c0 rest, chunksOf C (f.lines.drop 1) = c0 :: rest := by
      cases hl : f.lines with
      | nil => rw [hl] at hf; simp at hf
      | cons a b =>
        cases hb : b with
        | nil => rw [hl, hb] at hf; simp at hf
        | cons x xs =>
          simp only [List.drop_succ_cons, List.drop_zero]
          exact ⟨_, _, chunksOf_cons C x xs⟩
    have hstep := processFileWithTotal_noFaults_eq C f ((f.lines.length : Int) - 1) db
      c0 rest hC hch
    obtain ⟨ihdb, ihok⟩ := ih (appendRows db (tableNameOf f.name) (f.lines.drop 1))
      (fun g hg => h g (List.mem_cons_of_mem _ hg))
    simp only [runFiles, processFile]
    rw [hstep]
    simp only []
    refine ⟨?_, ?_⟩
    · rw [ingestAll]
      simpa using ihdb
    · simpa using ihok

/-!
The claims.
-/

/-- C1: for every CSV file with at least one data chunk (`N ≥ 1` data
rows) processed with chunk size `C > 0` and no faults, all `N` data rows
are appended to the target table (total rows inserted equals `N`), the
file is read as exactly `ceil(N / C)` chunks (`rest.length + 1` below),
the first chunk goes through the generic insert path
(`Event.insertedFirst`) and every subsequent chunk through the bulk-copy
path (`Event.copied`). -/
theorem claimC1_rows_and_chunks (f : CsvFile) (C : Nat) (db : DB) (c0 : List Row)
    (rest : List (List Row)) (hC : 0 < C)
    (hch : chunksOf C (f.lines.drop 1) = c0 :: rest) :
    processFile noFaults C f db
      = ⟨appendRows db (tableNameOf f.name) (f.lines.drop 1),
         [Event.precounted f.name ((f.lines.length : Int) - 1),
          Event.insertedFirst (tableNameOf f.name) c0.length,
          Event.openedRaw f.name]
           ++ rest.map (fun ch => Event.copied (tableNameOf f.name) ch.length)
           ++ [Event.committed f.name, Event.closedRaw f.name],
         true⟩
    ∧ lookupD (processFile noFaults C f db).db (tableNameOf f.name)
        = lookupD db (tableNameOf f.name) ++ f.lines.drop 1
    ∧ rest.length + 1 = ((f.lines.drop 1).length + C - 1) / C := by
  have h1 := processFileWithTotal_noFaults_eq C f ((f.lines.length : Int) - 1) db
    c0 rest hC hch
  refine ⟨h1, ?_, ?_⟩
  · rw [processFile, h1]
    exact lookupD_appendRows_self ..
  · have h2 := chunksOf_length C hC (f.lines.drop 1)
    rw [hch] at h2
    simpa using h2

/-- Witness for C1: a file with three data rows and chunk size two ends
with all three rows in table `sales`, loaded as two chunks (one insert,
one copy). -/
theorem claimC1_rows_and_chunks_witness :
    0 < 2
    ∧ chunksOf 2 ((CsvFile.mk "Sales.csv" [["id"], ["1"], ["2"], ["3"]]).lines.drop 1)
        = [["1"], ["2"]] :: [[["3"]]]
    ∧ (processFile noFaults 2 (CsvFile.mk "Sales.csv" [["id"], ["1"], ["2"], ["3"]]) []
        = ⟨[("sales", [["1"], ["2"], ["3"]])],
           [Event.precounted "Sales.csv" 3, Event.insertedFirst "sales" 2,
            Event.openedRaw "Sales.csv", Event.copied "sales" 1,
            Event.committed "Sales.csv", Event.closedRaw "Sales.csv"],
           true⟩
       ∧ lookupD (processFile noFaults 2 (CsvFile.mk "Sales.csv" [["id"], ["1"], ["2"], ["3"]]) []).db
            "sales" = [["1"], ["2"], ["3"]]
       ∧ 1 + 1 = (3 + 2 - 1) / 2) := by
  have h1 : (0 : Nat) < 2 := by decide
  have h2 : chunksOf 2 ((CsvFile.mk "Sales.csv" [["id"], ["1"], ["2"], ["3"]]).lines.drop 1)
      = [["1"], ["2"]] :: [[["3"]]] := by decide
  exact ⟨h1, h2, claimC1_rows_and_chunks (CsvFile.mk "Sales.csv" [["id"], ["1"], ["2"], ["3"]])
    2 [] [["1"], ["2"]] [[["3"]]] h1 h2⟩

/-- C2: for every file whose bulk-copy step raises, the bulk transaction
is rolled back (`Event.rolledBack`), no bulk-phase row of that attempt is
visible afterwards (the database holds exactly the first chunk appended),
and the loop proceeds to the next file. -/
theorem claimC2_copy_failure_isolated (flt : String → Faults) (C : Nat) (f : CsvFile)
    (fs : List CsvFile) (db : DB) (c0 : List Row) (rest : List (List Row)) (i : Nat)
    (hch : chunksOf C (f.lines.drop 1) = c0 :: rest)
    (hfi : (flt f.name).firstInsertFails = false)
    (hrc : (flt f.name).rawConnFails = false)
    (hcp : (flt f.name).copyFailsAt = some i)
    (hi : i < rest.length) :
    (processFile (flt f.name) C f db).db = appendRows db (tableNameOf f.name) c0
    ∧ (processFile (flt f.name) C f db).ok = true
    ∧ Event.rolledBack f.name ∈ (processFile (flt f.name) C f db).events
    ∧ runFiles flt C (f :: fs) db
        = ⟨(runFiles flt C fs (processFile (flt f.name) C f db).db).db,
           (processFile (flt f.name) C f db).events
             ++ (runFiles flt C fs (processFile (flt f.name) C f db).db).events,
           (runFiles flt C fs (processFile (flt f.name) C f db).db).ok⟩ := by
  have h1 := processFileWithTotal_copyFail (flt f.name) C f ((f.lines.length : Int) - 1) db
    c0 rest i hch hfi hrc hcp hi
  refine ⟨?_, ?_, ?_, ?_⟩
  · rw [processFile, h1]
  · rw [processFile, h1]
  · rw [processFile, h1]
    simp
  · simp only [runFiles, processFile]
    rw [h1]
    simp

/-- Witness for C2: chunk size one, a copy fault on the first COPY call;
only the first chunk of `a.csv` remains, the error is logged, the
transaction rolled back, and the run still reaches the summary. -/
theorem claimC2_copy_failure_isolated_witness :
    chunksOf 1 ((CsvFile.mk "a.csv" [["h"], ["1"], ["2"], ["3"]]).lines.drop 1)
        = [["1"]] :: [[["2"]], [["3"]]]
    ∧ (0 : Nat) < 2
    ∧ ((processFile (Faults.mk false false (some 0) false) 1
          (CsvFile.mk "a.csv" [["h"], ["1"], ["2"], ["3"]]) []).db = [("a", [["1"]])]
       ∧ (processFile (Faults.mk false false (some 0) false) 1
          (CsvFile.mk "a.csv" [["h"], ["1"], ["2"], ["3"]]) []).ok = true
       ∧ Event.rolledBack "a.csv" ∈ (processFile (Faults.mk false false (some 0) false) 1
          (CsvFile.mk "a.csv" [["h"], ["1"], ["2"], ["3"]]) []).events
       ∧ runFiles (fun _ => Faults.mk false false (some 0) false) 1
            [CsvFile.mk "a.csv" [["h"], ["1"], ["2"], ["3"]]] []
          = ⟨[("a", [["1"]])],
             [Event.precounted "a.csv" 3, Event.insertedFirst "a" 1,
              Event.openedRaw "a.csv", Event.loggedError "a.csv",
              Event.rolledBack "a.csv", Event.closedRaw "a.csv", Event.summary],
             true⟩) := by
  have h1 : chunksOf 1 ((CsvFile.mk "a.csv" [["h"], ["1"], ["2"], ["3"]]).lines.drop 1)
      = [["1"]] :: [[["2"]], [["3"]]] := by decide
  have h2 : (0 : Nat) < 2 := by decide
  exact ⟨h1, h2, claimC2_copy_failure_isolated (fun _ => Faults.mk false false (some 0) false)
    1 (CsvFile.mk "a.csv" [["h"], ["1"], ["2"], ["3"]]) [] [] [["1"]] [[["2"]], [["3"]]] 0
    h1 rfl rfl rfl h2⟩

/-- C9: when the bulk-copy phase fails after the first chunk was
inserted, only the raw-connection transaction is rolled back: the first
chunk, committed through the separate engine handle, stays in the target
table (which therefore persists), and every other table is untouched. -/
theorem claimC9_first_chunk_persists (flt : Faults) (C : Nat) (f : CsvFile) (db : DB)
    (c0 : List Row) (rest : List (List Row)) (i : Nat)
    (hch : chunksOf C (f.lines.drop 1) = c0 :: rest)
    (hfi : flt.firstInsertFails = false) (hrc : flt.rawConnFails = false)
    (hcp : flt.copyFailsAt = some i) (hi : i < rest.length) :
    lookupTable (processFile flt C f db).db (tableNameOf f.name)
      = some (lookupD db (tableNameOf f.name) ++ c0)
    ∧ (∀ t, t ≠ tableNameOf f.name →
        lookupTable (processFile flt C f db).db t = lookupTable db t)
    ∧ (processFile flt C f db).ok = true := by
  have h1 := processFileWithTotal_copyFail flt C f ((f.lines.length : Int) - 1) db
    c0 rest i hch hfi hrc hcp hi
  refine ⟨?_, ?_, ?_⟩
  · rw [processFile, h1]
    exact lookupTable_appendRows_self ..
  · intro t ht
    rw [processFile, h1]
    exact lookupTable_appendRows_ne db _ t c0 ht
  · rw [processFile, h1]

/-- Auxiliary: a non-copy event never occurs in the COPY loop trace. -/
theorem count_copyTrace_not_copied (tn : String) (failAt : Option Nat)
    (rest : List (List Row)) (e : Event) (h : ∀ m, e ≠ Event.copied tn m) :
    (copyTrace tn failAt rest).count e = 0 := by
  rw [List.count_eq_zero]
  intro hmem
  rw [copyTrace] at hmem
  obtain ⟨ch, _, rfl⟩ := List.mem_map.mp hmem
  exact h ch.length rfl

/-- Auxiliary: the bulk phase opens and closes the raw connection exactly
once each. -/
theorem bulkResult_counts (flt : Faults) (tn fn : String) (rest : List (List Row)) (db1 : DB) :
    (bulkResult flt tn fn rest db1).events.count (Event.openedRaw fn) = 1
    ∧ (bulkResult flt tn fn rest db1).events.count (Event.closedRaw fn) = 1 := by
  simp only [bulkResult]
  split <;> refine ⟨?_, ?_⟩ <;>
    simp [List.count_cons, List.count_append, count_copyTrace_not_copied]

/-- Auxiliary: the bulk phase always ends by closing the raw connection. -/
theorem bulkResult_events_getLast (flt : Faults) (tn fn : String) (rest : List (List Row))
    (db1 : DB) :
    (bulkResult flt tn fn rest db1).events.getLast? = some (Event.closedRaw fn) := by
  simp only [bulkResult]
  split
  · exact getLast?_append_right _ (by simp)
  · exact getLast?_append_right _ (by simp)

/-- Auxiliary: the tables named by the copy events of the COPY loop. -/
theorem filterMap_eventTable_copied (tn : String) (l : List (List Row)) :
    (l.map (fun ch => Event.copied tn ch.length)).filterMap eventTable
      = l.map (fun _ => tn) := by
  induction l with
  | nil => rfl
  | cons x xs ih => simp [eventTable, ih]

theorem all_map_const_beq (tn : String) (l : List (List Row)) :
    ((l.map (fun _ => tn)).all (fun t => t == tn)) = true := by
  induction l with
  | nil => rfl
  | cons x xs ih => simp

/-- Auxiliary: characterization of the database produced by a fault-free
whole run. -/
theorem load_data_fast_noFaults_db (C : Nat) (hC : 0 < C) (files : List CsvFile) (db : DB)
    (hlen : ∀ f ∈ files.filter (fun g => strEndsWith g.name ".csv"), 2 ≤ f.lines.length) :
    (load_data_fast (fun _ => noFaults) C files db).db
      = ingestAll (files.filter (fun g => strEndsWith g.name ".csv")) db := by
  by_cases hemp : (files.filter (fun g => strEndsWith g.name ".csv")).isEmpty = true
  · have hnil : files.filter (fun g => strEndsWith g.name ".csv") = [] :=
      List.isEmpty_iff.mp hemp
    simp [load_data_fast, hnil, ingestAll]
  · have h1 := (runFiles_noFaults C hC (files.filter (fun g => strEndsWith g.name ".csv"))
      db hlen).1
    simp only [load_data_fast, hemp, Bool.false_eq_true, if_false]
    exact h1

/-- Witness for C9: after a copy fault on `B.csv`, table `b` holds the
first chunk, the unrelated table `other` is unchanged, and the step ends
normally. -/
theorem claimC9_first_chunk_persists_witness :
    chunksOf 1 ((CsvFile.mk "B.csv" [["h"], ["x"], ["y"]]).lines.drop 1)
        = [["x"]] :: [[["y"]]]
    ∧ (0 : Nat) < 1
    ∧ (lookupTable (processFile (Faults.mk false false (some 0) false) 1
          (CsvFile.mk "B.csv" [["h"], ["x"], ["y"]]) [("other", [["z"]])]).db "b"
        = some [["x"]]
       ∧ (∀ t, t ≠ "b" →
          lookupTable (processFile (Faults.mk false false (some 0) false) 1
            (CsvFile.mk "B.csv" [["h"], ["x"], ["y"]]) [("other", [["z"]])]).db t
            = lookupTable [("other", [["z"]])] t)
       ∧ (processFile (Faults.mk false false (some 0) false) 1
          (CsvFile.mk "B.csv" [["h"], ["x"], ["y"]]) [("other", [["z"]])]).ok = true) := by
  have h1 : chunksOf 1 ((CsvFile.mk "B.csv" [["h"], ["x"], ["y"]]).lines.drop 1)
      = [["x"]] :: [[["y"]]] := by decide
  have h2 : (0 : Nat) < 1 := by decide
  exact ⟨h1, h2, claimC9_first_chunk_persists (Faults.mk false false (some 0) false) 1
    (CsvFile.mk "B.csv" [["h"], ["x"], ["y"]]) [("other", [["z"]])] [["x"]] [[["y"]]] 0
    h1 rfl rfl rfl h2⟩

/-- C3 counterexample: with a zero-line `empty.csv` first in the
directory, the run aborts at the chunked-reader construction (which sits
outside the per-file `try`): no summary is emitted and `good.csv` is
never even started, so one file can abort the whole batch. -/
theorem claimC3_counterexample :
    (load_data_fast (fun _ => noFaults) 100000
        [CsvFile.mk "empty.csv" [], CsvFile.mk "good.csv" [["h"], ["1"]]] []).ok = false
    ∧ Event.summary ∉ (load_data_fast (fun _ => noFaults) 100000
        [CsvFile.mk "empty.csv" [], CsvFile.mk "good.csv" [["h"], ["1"]]] []).events
    ∧ Event.insertedFirst "good" 1 ∉ (load_data_fast (fun _ => noFaults) 100000
        [CsvFile.mk "empty.csv" [], CsvFile.mk "good.csv" [["h"], ["1"]]] []).events := by
  decide

/-- C3 (amended): every exception raised by the fallible database
operations inside the per-file `try` (first insert, raw-connection
opening, any COPY call, commit) is caught and contained at the per-file
boundary — under an arbitrary fault assignment the loop still processes
every file and ends with the final summary — provided every file has at
least one line, so that no chunked-reader construction raises outside the
`try`. -/
theorem claimC3_amended_faults_contained (flt : String → Faults) (C : Nat) :
    ∀ (files : List CsvFile) (db : DB), (∀ f ∈ files, f.lines ≠ []) →
      (runFiles flt C files db).ok = true
      ∧ (runFiles flt C files db).events.getLast? = some Event.summary := by
  intro files
  induction files with
  | nil => intro db _; exact ⟨rfl, rfl⟩
  | cons f fs ih =>
    intro db h
    have hok : (processFile (flt f.name) C f db).ok = true :=
      processFileWithTotal_ok (flt f.name) C f _ db (h f (by simp))
    obtain ⟨ih1, ih2⟩ := ih ((processFile (flt f.name) C f db).db)
      (fun g hg => h g (List.mem_cons_of_mem _ hg))
    refine ⟨?_, ?_⟩
    · simp [runFiles, hok, ih1]
    · simp only [runFiles, hok, if_true]
      exact getLast?_append_right _ ih2

/-- Witness for C3 (amended): two files, one with a failing first insert
and one with a failing COPY; the run finishes and ends with the summary. -/
theorem claimC3_amended_faults_contained_witness :
    (∀ f ∈ [CsvFile.mk "a.csv" [["h"], ["1"]], CsvFile.mk "b.csv" [["h"], ["2"], ["3"]]],
        f.lines ≠ ([] : List Row))
    ∧ ((runFiles (fun n => if n = "a.csv" then Faults.mk true false Option.none false
          else Faults.mk false false (some 0) false) 1
          [CsvFile.mk "a.csv" [["h"], ["1"]], CsvFile.mk "b.csv" [["h"], ["2"], ["3"]]] []).ok
        = true
       ∧ (runFiles (fun n => if n = "a.csv" then Faults.mk true false Option.none false
          else Faults.mk false false (some 0) false) 1
          [CsvFile.mk "a.csv" [["h"], ["1"]], CsvFile.mk "b.csv" [["h"], ["2"], ["3"]]] []).events.getLast?
        = some Event.summary) := by
  have h : ∀ f ∈ [CsvFile.mk "a.csv" [["h"], ["1"]], CsvFile.mk "b.csv" [["h"], ["2"], ["3"]]],
      f.lines ≠ ([] : List Row) := by decide
  exact ⟨h, claimC3_amended_faults_contained
    (fun n => if n = "a.csv" then Faults.mk true false Option.none false
      else Faults.mk false false (some 0) false) 1
    [CsvFile.mk "a.csv" [["h"], ["1"]], CsvFile.mk "b.csv" [["h"], ["2"], ["3"]]] [] h⟩

/-- C4 counterexample: a file with zero lines yields no data chunk, yet
no warning is logged and an error does escape — the claimed
warn-and-skip behaviour does not cover the empty file. -/
theorem claimC4_counterexample :
    (processFile noFaults 100000 (CsvFile.mk "void.csv" []) []).ok = false
    ∧ Event.warnedEmpty "void.csv"
        ∉ (processFile noFaults 100000 (CsvFile.mk "void.csv" []) []).events := by
  decide

/-- C4 (amended): for every header-only file — one whose successfully
constructed chunked reader yields no data chunk — a warning is logged,
the database is untouched (no table created, no row inserted), no error
is raised and the step ends normally so the run continues; a file with no
lines at all instead raises at reader construction (see C10). -/
theorem claimC4_amended_header_only (flt : Faults) (C : Nat) (f : CsvFile) (db : DB)
    (h : f.lines.length = 1) :
    processFile flt C f db
      = ⟨db, [Event.precounted f.name 0, Event.warnedEmpty f.name], true⟩ := by
  obtain ⟨nm, lines⟩ := f
  cases lines with
  | nil => simp at h
  | cons hd tl =>
    have htl : tl = [] := by simpa using h
    subst htl
    simp [processFile, processFileWithTotal, chunksOf_nil]

/-- Witness for C4 (amended): a header-only file is skipped with a
warning and leaves the database exactly as it was, even under a fully
faulty fault assignment. -/
theorem claimC4_amended_header_only_witness :
    (CsvFile.mk "only_header.csv" [["a", "b"]]).lines.length = 1
    ∧ processFile (Faults.mk true true (some 0) true) 100000
        (CsvFile.mk "only_header.csv" [["a", "b"]]) [("t", [["x"]])]
      = ⟨[("t", [["x"]])],
         [Event.precounted "only_header.csv" 0, Event.warnedEmpty "only_header.csv"],
         true⟩ := by
  have h : (CsvFile.mk "only_header.csv" [["a", "b"]]).lines.length = 1 := by decide
  exact ⟨h, claimC4_amended_header_only (Faults.mk true true (some 0) true) 100000
    (CsvFile.mk "only_header.csv" [["a", "b"]]) [("t", [["x"]])] h⟩

/-- C5: every table-targeting event the per-file step emits (the generic
first insert and every COPY) names `tableNameOf f.name`, the lowercased
splitext stem of the file name — a deterministic function of the file
name alone — on every control path and under every fault assignment. -/
theorem claimC5_table_name_is_lower_stem (flt : Faults) (C : Nat) (f : CsvFile) (total : Int)
    (db : DB) :
    (((processFileWithTotal flt C f total db).events.filterMap eventTable).all
      (fun t => t == tableNameOf f.name)) = true := by
  obtain ⟨nm, lines⟩ := f
  cases lines with
  | nil => rfl
  | cons hd d =>
    rcases hch : chunksOf C d with _ | ⟨c0, rest⟩
    · simp [processFileWithTotal, hch, eventTable]
    · cases hfi : flt.firstInsertFails
      · cases hrc : flt.rawConnFails
        · cases hbc : (copySucceeds flt.copyFailsAt rest.length && !flt.commitFails) <;>
            simp [processFileWithTotal, hch, hfi, hrc, bulkResult, hbc, eventTable,
              copyTrace, filterMap_eventTable_copied, all_map_const_beq] <;>
          · intro x hx
            obtain ⟨ch, hmem, rfl⟩ := List.mem_map.mp (List.mem_of_mem_take hx)
            simp
        · simp [processFileWithTotal, hch, hfi, hrc, eventTable]
      · simp [processFileWithTotal, hch, hfi, eventTable]

/-- C6: on every control path of the per-file step and under every fault
assignment, the raw connection is either never opened and never closed,
or opened exactly once and closed exactly once, the close being the very
last event of the file (hence before any later file is processed). -/
theorem claimC6_raw_conn_closed_once (flt : Faults) (C : Nat) (f : CsvFile) (total : Int)
    (db : DB) :
    ((processFileWithTotal flt C f total db).events.count (Event.openedRaw f.name) = 0
      ∧ (processFileWithTotal flt C f total db).events.count (Event.closedRaw f.name) = 0)
    ∨ ((processFileWithTotal flt C f total db).events.count (Event.openedRaw f.name) = 1
      ∧ (processFileWithTotal flt C f total db).events.count (Event.closedRaw f.name) = 1
      ∧ (processFileWithTotal flt C f total db).events.getLast?
          = some (Event.closedRaw f.name)) := by
  obtain ⟨nm, lines⟩ := f
  cases lines with
  | nil => left; exact ⟨rfl, rfl⟩
  | cons hd d =>
    rcases hch : chunksOf C d with _ | ⟨c0, rest⟩
    · left
      constructor <;> simp [processFileWithTotal, hch]
    · cases hfi : flt.firstInsertFails
      · cases hrc : flt.rawConnFails
        · right
          have hev : (processFileWithTotal flt C (CsvFile.mk nm (hd :: d)) total db).events
              = ([Event.precounted nm total]
                  ++ [Event.insertedFirst (tableNameOf nm) c0.length])
                ++ (bulkResult flt (tableNameOf nm) nm rest
                    (appendRows db (tableNameOf nm) c0)).events := by
            simp [processFileWithTotal, hch, hfi, hrc]
          obtain ⟨hb1, hb2⟩ := bulkResult_counts flt (tableNameOf nm) nm rest
            (appendRows db (tableNameOf nm) c0)
          refine ⟨?_, ?_, ?_⟩
          · rw [hev]
            simp [List.count_append, hb1]
          · rw [hev]
            simp [List.count_append, hb2]
          · rw [hev]
            exact getLast?_append_right _ (bulkResult_events_getLast ..)
        · left
          constructor <;> simp [processFileWithTotal, hch, hfi, hrc]
      · left
        constructor <;> simp [processFileWithTotal, hch, hfi]

/-- C7: the pre-counted progress total is the first event of the file,
before any data transfer, its value is the line count minus one, and it
has no influence on what is loaded: the database outcome, the success
flag and the whole remainder of the trace are identical for any two
totals. -/
theorem claimC7_precount_display_only (flt : Faults) (C : Nat) (f : CsvFile) (db : DB)
    (t₁ t₂ : Int) :
    (processFile flt C f db).events.head?
      = some (Event.precounted f.name ((f.lines.length : Int) - 1))
    ∧ (processFileWithTotal flt C f t₁ db).db = (processFileWithTotal flt C f t₂ db).db
    ∧ (processFileWithTotal flt C f t₁ db).ok = (processFileWithTotal flt C f t₂ db).ok
    ∧ (processFileWithTotal flt C f t₁ db).events.tail
        = (processFileWithTotal flt C f t₂ db).events.tail := by
  obtain ⟨nm, lines⟩ := f
  refine ⟨?_, ?_, ?_, ?_⟩ <;>
  · cases lines with
    | nil => rfl
    | cons hd d =>
      rcases hch : chunksOf C d with _ | ⟨c0, rest⟩
      · simp [processFile, processFileWithTotal, hch]
      · cases hfi : flt.firstInsertFails <;> cases hrc : flt.rawConnFails <;>
          simp [processFile, processFileWithTotal, hch, hfi, hrc]

/-- C8: a fault-free rerun never drops, replaces or alters an existing
table.  With pairwise distinct table names, after running the ingestor
twice over the same directory each ingested table holds its original
contents followed by two copies of the data rows of its file (append, no
deduplication), and every table that no processed file targets is exactly
as before. -/
theorem claimC8_rerun_appends_second_copy (files : List CsvFile) (C : Nat) (db0 : DB)
    (hC : 0 < C)
    (hlen : ∀ f ∈ files.filter (fun g => strEndsWith g.name ".csv"), 2 ≤ f.lines.length)
    (hnd : ((files.filter (fun g => strEndsWith g.name ".csv")).map
        (fun g => tableNameOf g.name)).Nodup) :
    (∀ f ∈ files.filter (fun g => strEndsWith g.name ".csv"),
        lookupD (load_data_fast (fun _ => noFaults) C files
            (load_data_fast (fun _ => noFaults) C files db0).db).db (tableNameOf f.name)
          = lookupD db0 (tableNameOf f.name) ++ f.lines.drop 1 ++ f.lines.drop 1)
    ∧ (∀ t, (∀ f ∈ files.filter (fun g => strEndsWith g.name ".csv"),
          t ≠ tableNameOf f.name) →
        lookupTable (load_data_fast (fun _ => noFaults) C files
            (load_data_fast (fun _ => noFaults) C files db0).db).db t
          = lookupTable db0 t) := by
  have hdb1 := load_data_fast_noFaults_db C hC files db0 hlen
  have hdb2 := load_data_fast_noFaults_db C hC files
    (load_data_fast (fun _ => noFaults) C files db0).db hlen
  refine ⟨?_, ?_⟩
  · intro f hf
    rw [hdb2, hdb1, lookupD_ingestAll_mem _ _ f hf hnd, lookupD_ingestAll_mem _ _ f hf hnd]
  · intro t ht
    have hall : ∀ f ∈ files.filter (fun g => strEndsWith g.name ".csv"),
        tableNameOf f.name ≠ t := fun f hf => Ne.symm (ht f hf)
    rw [hdb2, hdb1, lookupTable_ingestAll_notMem _ _ _ hall,
      lookupTable_ingestAll_notMem _ _ _ hall]

/-- Witness for C8: two csv files (one with an uppercase name) and one
non-csv file; after two runs each table holds two copies of its rows and
a pre-existing unrelated table is untouched. -/
theorem claimC8_rerun_appends_second_copy_witness :
    0 < 1
    ∧ (∀ f ∈ [CsvFile.mk "A.csv" [["h"], ["1"]], CsvFile.mk "b.csv" [["h"], ["2"], ["3"]],
          CsvFile.mk "notes.txt" [["x"]]].filter (fun g => strEndsWith g.name ".csv"),
        2 ≤ f.lines.length)
    ∧ (([CsvFile.mk "A.csv" [["h"], ["1"]], CsvFile.mk "b.csv" [["h"], ["2"], ["3"]],
          CsvFile.mk "notes.txt" [["x"]]].filter (fun g => strEndsWith g.name ".csv")).map
        (fun g => tableNameOf g.name)).Nodup
    ∧ ((∀ f ∈ [CsvFile.mk "A.csv" [["h"], ["1"]], CsvFile.mk "b.csv" [["h"], ["2"], ["3"]],
          CsvFile.mk "notes.txt" [["x"]]].filter (fun g => strEndsWith g.name ".csv"),
        lookupD (load_data_fast (fun _ => noFaults) 1
            [CsvFile.mk "A.csv" [["h"], ["1"]], CsvFile.mk "b.csv" [["h"], ["2"], ["3"]],
              CsvFile.mk "notes.txt" [["x"]]]
            (load_data_fast (fun _ => noFaults) 1
              [CsvFile.mk "A.csv" [["h"], ["1"]], CsvFile.mk "b.csv" [["h"], ["2"], ["3"]],
                CsvFile.mk "notes.txt" [["x"]]] [("keep", [["k"]])]).db).db
          (tableNameOf f.name)
          = lookupD [("keep", [["k"]])] (tableNameOf f.name)
              ++ f.lines.drop 1 ++ f.lines.drop 1)
       ∧ (∀ t, (∀ f ∈ [CsvFile.mk "A.csv" [["h"], ["1"]],
              CsvFile.mk "b.csv" [["h"], ["2"], ["3"]],
              CsvFile.mk "notes.txt" [["x"]]].filter (fun g => strEndsWith g.name ".csv"),
            t ≠ tableNameOf f.name) →
          lookupTable (load_data_fast (fun _ => noFaults) 1
              [CsvFile.mk "A.csv" [["h"], ["1"]], CsvFile.mk "b.csv" [["h"], ["2"], ["3"]],
                CsvFile.mk "notes.txt" [["x"]]]
              (load_data_fast (fun _ => noFaults) 1
                [CsvFile.mk "A.csv" [["h"], ["1"]], CsvFile.mk "b.csv" [["h"], ["2"], ["3"]],
                  CsvFile.mk "notes.txt" [["x"]]] [("keep", [["k"]])]).db).db t
            = lookupTable [("keep", [["k"]])] t)) := by
  have h1 : (0 : Nat) < 1 := by decide
  have h2 : ∀ f ∈ [CsvFile.mk "A.csv" [["h"], ["1"]], CsvFile.mk "b.csv" [["h"], ["2"], ["3"]],
      CsvFile.mk "notes.txt" [["x"]]].filter (fun g => strEndsWith g.name ".csv"),
      2 ≤ f.lines.length := by decide
  have h3 : (([CsvFile.mk "A.csv" [["h"], ["1"]], CsvFile.mk "b.csv" [["h"], ["2"], ["3"]],
      CsvFile.mk "notes.txt" [["x"]]].filter (fun g => strEndsWith g.name ".csv")).map
      (fun g => tableNameOf g.name)).Nodup := by decide
  exact ⟨h1, h2, h3, claimC8_rerun_appends_second_copy
    [CsvFile.mk "A.csv" [["h"], ["1"]], CsvFile.mk "b.csv" [["h"], ["2"], ["3"]],
      CsvFile.mk "notes.txt" [["x"]]] 1 [("keep", [["k"]])] h1 h2 h3⟩

/-- C10: a file with zero lines pre-counts to `-1` (line count minus
one), but it is not handled by the empty-file warning path: the
chunked-reader construction raises outside the per-file `try`, no warning
is logged, and the exception escapes instead of the documented
skip-with-warning. -/
theorem claimC10_zero_line_file_escapes :
    processFile noFaults 100000 (CsvFile.mk "null.csv" []) []
      = ⟨[], [Event.precounted "null.csv" (-1)], false⟩
    ∧ Event.warnedEmpty "null.csv"
        ∉ (processFile noFaults 100000 (CsvFile.mk "null.csv" []) []).events := by
  decide

end VendorIngest
